import Mathlib

/-!
Verification of the ingestion-to-sections pipeline of
`scripts/generate_site.py` (VoiceOfCrypto): title normalization,
classification, scoring, window filtering, deduplication, section
selection and source-configuration loading. Strings are modelled as
`List Char`, Python floats as exact rationals (all constants involved
are decimal literals), and Python's `round` (banker's rounding) as
`roundHalfEven`.
-/

attribute [local semireducible] Rat.mul Rat.add Rat.sub Rat.inv Rat.ofScientific

/-- Python whitespace characters matched by the regex `\s` and stripped by
`str.strip` (ASCII range): space, tab, newline, vertical tab, form feed,
carriage return. -/
def pyWs (c : Char) : Bool :=
  c = ' ' || c = '\t' || c = '\n' || c = '\x0b' || c = '\x0c' || c = '\r'

/-- Python `str.lower` (ASCII letters; the keywords and quote characters the
pipeline matches on are unaffected by non-ASCII case folding). -/
def lowerStr (l : List Char) : List Char := l.map Char.toLower

/-- Removal of trailing whitespace, the right half of Python `str.strip`. -/
def rstrip : List Char → List Char
  | [] => []
  | c :: cs => if (rstrip cs).isEmpty && pyWs c then [] else c :: rstrip cs

/-- Python `str.strip`: drop leading and trailing whitespace. -/
def pyStrip (l : List Char) : List Char := rstrip (l.dropWhile pyWs)

/-- State-passing model of `re.sub(r"\s+", " ", s)`: the flag records whether
the scanner is inside a whitespace run whose single replacement space has
already been emitted. -/
def collapseAux : Bool → List Char → List Char
  | _, [] => []
  | inRun, c :: cs =>
    if pyWs c then
      if inRun then collapseAux true cs else ' ' :: collapseAux true cs
    else c :: collapseAux false cs

/-- `re.sub(r"\s+", " ", s)`: every maximal whitespace run becomes one space. -/
def collapseWs (l : List Char) : List Char := collapseAux false l

/-- The characters of the regex class `[“”"'’`]` on line 36 of
`generate_site.py`: left and right curly double quotes, straight double and
single quotes, right curly single quote, backtick. -/
def quoteChars : List Char := ['“', '”', '"', '\'', '’', '`']

/-- `re.sub(r"[“”\"'’`]", "", s)`. -/
def removeQuotes (l : List Char) : List Char :=
  l.filter (fun c => !(quoteChars.contains c))

/-- The characters of the regex class `[\[\]\(\)\{\}]`. -/
def bracketChars : List Char := ['[', ']', '(', ')', '{', '}']

/-- `re.sub(r"[\[\]\(\)\{\}]", "", s)`. -/
def removeBrackets (l : List Char) : List Char :=
  l.filter (fun c => !(bracketChars.contains c))

/-- `normalize_title` from `generate_site.py`: lower-case, strip, collapse
whitespace runs, remove the quote characters of `quoteChars`, remove
brackets — in the source's order. -/
def normalize_title (l : List Char) : List Char :=
  removeBrackets (removeQuotes (collapseWs (pyStrip (lowerStr l))))

/-- The quote characters named by the spec's normalization rule: "straight
and curly single and double" quotes — straight single and double, left and
right curly single, left and right curly double. -/
def claimQuoteChars : List Char := ['\'', '"', '‘', '’', '“', '”']

/-- Title normalization exactly as claim C8 words it: lower-case, collapse
internal whitespace runs, strip leading/trailing whitespace, remove the
straight and curly quote characters, remove brackets. -/
def normalizeTitleClaim (l : List Char) : List Char :=
  removeBrackets
    ((pyStrip (collapseWs (lowerStr l))).filter (fun c => !(claimQuoteChars.contains c)))

/-- Claim C8's pipeline amended only in its quote set: the characters removed
are the source's `quoteChars` (no left curly single quote, backtick included);
the operation order is as the claim lists it. -/
def normalizeTitleAmended (l : List Char) : List Char :=
  removeBrackets (removeQuotes (pyStrip (collapseWs (lowerStr l))))

/-- Python's substring test `k in t` on character lists. -/
def isSubstrOf : List Char → List Char → Bool
  | pat, [] => pat.isEmpty
  | pat, c :: rest => pat.isPrefixOf (c :: rest) || isSubstrOf pat rest

/-- Python's two-argument `min`: the first argument when it is no larger. -/
def pyMin (a b : ℚ) : ℚ := if a ≤ b then a else b

/-- Security keywords of `classify`. -/
def securityKeywords : List (List Char) :=
  ["hack".data, "exploit".data, "drain".data, "scam".data, "phishing".data,
   "ransom".data, "breach".data]

/-- Regulation keywords of `classify`. -/
def regulationKeywords : List (List Char) :=
  ["sec".data, "regulat".data, "bill".data, "law".data, "court".data,
   "lawsuit".data, "ban".data, "fine".data, "probe".data]

/-- Biz/Capital keywords of `classify`. -/
def bizKeywords : List (List Char) :=
  ["etf".data, "raises".data, "raise".data, "series".data, "funding".data,
   "acquire".data, "acquisition".data, "merger".data]

/-- Markets keywords of `classify`. -/
def marketsKeywords : List (List Char) :=
  ["btc".data, "bitcoin".data, "eth".data, "ether".data, "price".data,
   "market".data, "liquidat".data, "dump".data, "pump".data]

/-- `classify` from `generate_site.py`: first matching category of the fixed
priority order Security, Regulation, Biz/Capital, Markets; else General.
A keyword matches when it is a substring of the lower-cased title. -/
def classify (title : List Char) : String :=
  if securityKeywords.any (fun k => isSubstrOf k (lowerStr title)) then "Security"
  else if regulationKeywords.any (fun k => isSubstrOf k (lowerStr title)) then "Regulation"
  else if bizKeywords.any (fun k => isSubstrOf k (lowerStr title)) then "Biz/Capital"
  else if marketsKeywords.any (fun k => isSubstrOf k (lowerStr title)) then "Markets"
  else "General"

/-- Python `round` to an integer: round half to even on exact rationals. -/
def roundHalfEven (q : ℚ) : ℤ :=
  if q - ⌊q⌋ < 1/2 then ⌊q⌋
  else if 1/2 < q - ⌊q⌋ then ⌊q⌋ + 1
  else if ⌊q⌋ % 2 = 0 then ⌊q⌋ else ⌊q⌋ + 1

/-- Python `round(x, 1)` on exact rationals. -/
def pyRound1 (q : ℚ) : ℚ := (roundHalfEven (10 * q) : ℚ) / 10

/-- The weighted keyword table of `score_item`. -/
def scoreKeywords : List (List Char × ℚ) :=
  [("exploit".data, 26/10), ("hack".data, 26/10), ("drain".data, 24/10),
   ("sec".data, 21/10), ("lawsuit".data, 2), ("court".data, 18/10),
   ("etf".data, 2), ("liquidat".data, 2),
   ("stablecoin".data, 16/10), ("btc".data, 6/10), ("eth".data, 4/10)]

/-- The accumulated base of `score_item`: the kind-dependent baseline
(4.6 for "news", else 4.2) plus the weight of each keyword occurring in the
lower-cased title. -/
def scoreBase (title : List Char) (kind : String) : ℚ :=
  (if kind = "news" then 46/10 else 42/10) +
    ((scoreKeywords.filter (fun kw => isSubstrOf kw.1 (lowerStr title))).map Prod.snd).sum

/-- `score_item` from `generate_site.py`:
`float(min(10.0, round(base, 1)))`. -/
def score_item (title : List Char) (kind : String) : ℚ :=
  pyMin 10 (pyRound1 (scoreBase title kind))

/-- The score stored on an Item by `fetch_items` (line 144):
`round(min(10.0, score_item(title, src.kind) * src.weight), 1)`. -/
def itemScore (title : List Char) (kind : String) (weight : ℚ) : ℚ :=
  pyRound1 (pyMin 10 (score_item title kind * weight))

/-- The final score exactly as claim C1 words it: the accumulated base
multiplied by the source weight, then clamped to 10.0 and rounded to one
decimal — with no clamping or rounding before the multiplication. -/
def claimFinalScore (title : List Char) (kind : String) (weight : ℚ) : ℚ :=
  pyRound1 (pyMin 10 (scoreBase title kind * weight))

/-- Claim C1 amended: the scorer already clamps (and rounds) the accumulated
base before the weight multiplication, and the product is clamped and rounded
again afterwards. -/
def amendedFinalScore (title : List Char) (kind : String) (weight : ℚ) : ℚ :=
  pyRound1 (min 10 (pyMin 10 (pyRound1 (scoreBase title kind)) * weight))

/-- The `Item` dataclass of `generate_site.py`. Text fields that the pipeline
processes character by character (title, link, ISO timestamp) are character
lists; the float score is an exact rational. -/
structure Item where
  source : String
  source_id : String
  title : List Char
  link : List Char
  published_sgt : List Char
  cls : String
  score : ℚ
  kind : String
  lang : String
deriving DecidableEq

/-- Python string comparison: lexicographic by code point. -/
def strLeB : List Char → List Char → Bool
  | [], _ => true
  | _ :: _, [] => false
  | a :: as, b :: bs => if a = b then strLeB as bs else decide (a < b)

/-- The Boolean order used by `sorted(items, key=lambda x: (-x.score,
x.published_sgt))`: `a` may stand before `b` iff the key tuple of `a` is
lexicographically at most that of `b` — higher score first, and on equal
scores the smaller (earlier) ISO timestamp string first. -/
def itemLeB (a b : Item) : Bool :=
  decide (b.score < a.score) ||
    (decide (a.score = b.score) && strLeB a.published_sgt b.published_sgt)

/-- `itemLeB` as a relation, for `List.insertionSort` (a stable sort, like
Python's `sorted`). -/
def itemLe (a b : Item) : Prop := itemLeB a b = true

instance : DecidableRel itemLe := fun a b => Bool.decEq (itemLeB a b) true

/-- The loop body of `dedup`: walk the ranked items, keep an item iff its
normalized title key has not been seen. -/
def dedupGo (seen : List (List Char)) : List Item → List Item
  | [] => []
  | it :: rest =>
    if normalize_title it.title ∈ seen then dedupGo seen rest
    else it :: dedupGo (normalize_title it.title :: seen) rest

/-- `dedup` from `generate_site.py`: sort by descending score then ascending
ISO timestamp string (a stable sort), then keep the first item of each
normalized title key. -/
def dedup (items : List Item) : List Item :=
  dedupGo [] (List.insertionSort itemLe items)

/-- `items_sorted` of `pick_sections`: the same ranking sort as `dedup`. -/
def sectionSorted (items : List Item) : List Item :=
  List.insertionSort itemLe items

/-- `breaking` of `pick_sections`: the first two ranked items with score at
least 8.8. -/
def sectionBreaking (items : List Item) : List Item :=
  ((sectionSorted items).filter (fun x => decide ((8.8:ℚ) ≤ x.score))).take 2

/-- `rest` of `pick_sections`: `[x for x in items_sorted if x not in
breaking]` — membership is Python structural equality on the dataclass. -/
def sectionRest (items : List Item) : List Item :=
  (sectionSorted items).filter (fun x => decide (x ∉ sectionBreaking items))

/-- `pick_sections` from `generate_site.py`, returning (headlines, breaking,
quick) exactly as the source does: headlines are `rest[:5]`, quick is
`rest[5:17]`. -/
def pick_sections (items : List Item) : List Item × List Item × List Item :=
  ((sectionRest items).take 5, sectionBreaking items,
    ((sectionRest items).drop 5).take 12)

/-- A Python datetime as the window filter sees it: either timezone-aware or
naive. An aware datetime is identified by its absolute instant (seconds);
`astimezone` preserves the instant and aware datetimes compare by instant.
A naive datetime carries its wall-clock reading. -/
inductive PyDateTime where
  | naive (wallclock : ℤ)
  | aware (instant : ℤ)
deriving DecidableEq

/-- The instant an entry's datetime denotes after `fetch_items` normalizes
it: a naive datetime is localized as UTC (`pytz.UTC.localize`), so its
wall-clock reading is its instant; `astimezone(tz)` then changes nothing. -/
def dtInstant : PyDateTime → ℤ
  | .naive n => n
  | .aware i => i

/-- One timestamp attribute of a feed entry as `safe_parse_dt` probes it:
missing or falsy, present but unparseable (`dtparser.parse` raises), or
parsed to a datetime. -/
inductive ParsedField where
  | absent
  | unparseable
  | parsed (dt : PyDateTime)
deriving DecidableEq

/-- A raw feed entry: the three timestamp attributes `safe_parse_dt` probes
in order, plus title and link text. -/
structure RawEntry where
  published : ParsedField
  updated : ParsedField
  pubDate : ParsedField
  title : List Char
  link : List Char
deriving DecidableEq

/-- One probe of `safe_parse_dt`: a datetime only when the attribute is
present, truthy and parses; an absent attribute and a parse failure both
fall through to the next key. -/
def tryField : ParsedField → Option PyDateTime
  | .parsed dt => some dt
  | _ => none

/-- `safe_parse_dt` from `generate_site.py`: first parse success among the
keys `published`, `updated`, `pubDate`, else `None`. -/
def safe_parse_dt (e : RawEntry) : Option PyDateTime :=
  match tryField e.published with
  | some dt => some dt
  | none =>
    match tryField e.updated with
    | some dt => some dt
    | none => tryField e.pubDate

/-- The window filter of `fetch_items` (lines 123-130): drop an entry with
no parseable timestamp; otherwise localize a naive timestamp as UTC, convert
to the reference timezone, and keep the entry iff `win_start <= dt_sgt <=
win_end`. Window bounds are given by their instants. -/
def windowKeep (wS wE : ℤ) (e : RawEntry) : Bool :=
  match safe_parse_dt e with
  | none => false
  | some d => decide (wS ≤ dtInstant d ∧ dtInstant d ≤ wE)

/-- Stand-in for `dt_sgt.isoformat()`: a deterministic text rendering of the
instant (the pipeline only ever compares these strings). -/
def dtToIso (i : ℤ) : List Char := (toString i).data

/-- The `SourceCfg` dataclass of `generate_site.py`. -/
structure SourceCfg where
  id : String
  name : String
  url : String
  lang : String
  kind : String
  weight : ℚ
deriving DecidableEq

/-- The per-entry body of `fetch_items`: window-filter on the parsed
timestamp, drop entries with empty stripped title or link, and build the
`Item` with `classify` and the weighted, clamped, rounded score. -/
def entryToItem (src : SourceCfg) (wS wE : ℤ) (e : RawEntry) : Option Item :=
  match safe_parse_dt e with
  | none => none
  | some d =>
    if wS ≤ dtInstant d ∧ dtInstant d ≤ wE then
      if (pyStrip e.title).isEmpty || (pyStrip e.link).isEmpty then none
      else some {
        source := src.name
        source_id := src.id
        title := pyStrip e.title
        link := pyStrip e.link
        published_sgt := dtToIso (dtInstant d)
        cls := classify (pyStrip e.title)
        score := itemScore (pyStrip e.title) src.kind src.weight
        kind := src.kind
        lang := src.lang }
    else none

/-- The per-source loop body of `fetch_items`: only the first 80 feed entries
(`feed.entries[:80]`) are considered. -/
def fetch_source (src : SourceCfg) (entries : List RawEntry) (wS wE : ℤ) : List Item :=
  (entries.take 80).filterMap (entryToItem src wS wE)

/-- `fetch_items` from `generate_site.py`: concatenate the surviving items of
every source; `feeds` stands for `feedparser.parse`, keyed by the source's
url. -/
def fetch_items (sources : List SourceCfg) (feeds : String → List RawEntry)
    (wS wE : ℤ) : List Item :=
  sources.flatMap (fun src => fetch_source src (feeds src.url) wS wE)

/-- One `sources:` entry of the YAML configuration, before validation: every
field may be missing. -/
structure SrcYaml where
  id : Option String
  name : Option String
  url : Option String
  lang : Option String
  kind : Option String
  weight : Option ℚ
deriving DecidableEq

/-- The parsed YAML configuration file: the `sources` key may be missing
(`cfg.get("sources", [])`). -/
structure SourcesConfig where
  sources : Option (List SrcYaml)
deriving DecidableEq

/-- One iteration of `load_sources`: the subscript lookups `s["id"]`,
`s["name"]`, `s["url"]`, `s["lang"]`, `s["kind"]` raise `KeyError` when the
field is missing; `s.get("weight", 1.0)` defaults to 1. -/
def parseSourceCfg (s : SrcYaml) : Except String SourceCfg :=
  match s.id, s.name, s.url, s.lang, s.kind with
  | some i, some n, some u, some l, some k =>
    .ok { id := i, name := n, url := u, lang := l, kind := k, weight := s.weight.getD 1 }
  | _, _, _, _, _ => .error "KeyError"

/-- The loop of `load_sources`: build the config list, propagating the first
`KeyError`. -/
def loadSourcesGo : List SrcYaml → Except String (List SourceCfg)
  | [] => .ok []
  | s :: rest =>
    match parseSourceCfg s with
    | .error msg => .error msg
    | .ok c =>
      match loadSourcesGo rest with
      | .error msg => .error msg
      | .ok cs => .ok (c :: cs)

/-- `load_sources` from `generate_site.py`: iterate over `cfg.get("sources",
[])`; an uncaught `KeyError` terminates the run, modelled as `Except.error`. -/
def load_sources (cfg : SourcesConfig) : Except String (List SourceCfg) :=
  loadSourcesGo (cfg.sources.getD [])

/-- Concrete item for the deduplication counterexample: the earlier-published
of two equal-score duplicates. -/
def itemA : Item :=
  { source := "s", source_id := "s", title := "BTC news".data, link := "l".data,
    published_sgt := "2024-01-01T00:00:00+08:00".data, cls := "Markets",
    score := 5, kind := "news", lang := "en" }

/-- Concrete item for the deduplication counterexample: the later-published
duplicate of `itemA` (same score, same normalized title). -/
def itemB : Item :=
  { source := "s", source_id := "s", title := "btc  news".data, link := "m".data,
    published_sgt := "2024-01-01T01:00:00+08:00".data, cls := "Markets",
    score := 5, kind := "news", lang := "en" }

/-- Concrete item for the section-selector counterexample. -/
def itemC : Item :=
  { source := "s", source_id := "s", title := "eth".data, link := "l".data,
    published_sgt := "2024-01-01T00:00:00+08:00".data, cls := "Markets",
    score := 5, kind := "news", lang := "en" }

/-- Concrete breaking-score item for the section-selector witness. -/
def itemD : Item :=
  { source := "s", source_id := "s", title := "hack".data, link := "l".data,
    published_sgt := "2024-01-01T00:00:00+08:00".data, cls := "Security",
    score := 9, kind := "news", lang := "en" }

/-- Concrete source configuration for the pipeline witnesses. -/
def srcEn : SourceCfg :=
  { id := "a", name := "A", url := "u", lang := "en", kind := "news", weight := 1 }

/-- Concrete feed entry accepted by the window filter. -/
def entryOk : RawEntry :=
  { published := .parsed (.aware 50), updated := .absent, pubDate := .absent,
    title := "btc".data, link := "x".data }

/-- The item `fetch_items` builds from `srcEn` and `entryOk`. -/
def witnessItem : Item :=
  { source := "A", source_id := "a", title := "btc".data, link := "x".data,
    published_sgt := dtToIso 50, cls := classify "btc".data,
    score := itemScore "btc".data "news" 1, kind := "news", lang := "en" }

/-- Concrete YAML source entry with the required `id` field missing. -/
def srcBad : SrcYaml :=
  { id := none, name := some "n", url := some "u", lang := some "en",
    kind := some "news", weight := none }

/-- Concrete configuration holding only `srcBad`. -/
def cfgBad : SourcesConfig := { sources := some [srcBad] }

/-- Concrete title for the normalization counterexample: a left curly single
quote followed by a backtick. -/
def c8Title : List Char := ['‘', '`']

lemma rstrip_eq_nil_iff (l : List Char) : rstrip l = [] ↔ l.all pyWs = true := by
  induction l with
  | nil => simp [rstrip]
  | cons c cs ih =>
    rw [rstrip]
    by_cases h : ((rstrip cs).isEmpty && pyWs c) = true
    · rw [if_pos h]
      simp only [Bool.and_eq_true, List.isEmpty_iff] at h
      simp [List.all_cons, h.2, ← ih, h.1]
    · rw [if_neg h]
      simp only [Bool.and_eq_true, List.isEmpty_iff, not_and] at h
      constructor
      · intro hx; exact absurd hx (List.cons_ne_nil _ _)
      · intro hall
        simp only [List.all_cons, Bool.and_eq_true] at hall
        exact absurd hall.1 (h (ih.mpr hall.2))

lemma rstrip_all_ws {l : List Char} (h : (rstrip l).all pyWs = true) : rstrip l = [] := by
  induction l with
  | nil => rfl
  | cons c cs ih =>
    by_cases hc : ((rstrip cs).isEmpty && pyWs c) = true
    · rw [rstrip, if_pos hc]
    · rw [rstrip, if_neg hc] at h ⊢
      simp only [List.all_cons, Bool.and_eq_true] at h
      rw [ih h.2] at hc
      simp [h.1] at hc

lemma collapseAux_true_nil_iff (l : List Char) :
    collapseAux true l = [] ↔ l.all pyWs = true := by
  induction l with
  | nil => simp [collapseAux]
  | cons c cs ih =>
    cases hc : pyWs c with
    | true => simp [collapseAux, hc, ih]
    | false => simp [collapseAux, hc]

lemma dropWhile_collapseAux (l : List Char) :
    ∀ b, (collapseAux b l).dropWhile pyWs = collapseAux false (l.dropWhile pyWs) := by
  induction l with
  | nil => intro b; rfl
  | cons c cs ih =>
    intro b
    cases hc : pyWs c with
    | true =>
      cases b with
      | true =>
        simp only [collapseAux, hc, if_true, List.dropWhile_cons, ih true]
      | false =>
        have hsp : pyWs ' ' = true := by decide
        simp only [collapseAux, hc, if_true, Bool.false_eq_true, if_false,
          List.dropWhile_cons, hsp, ih true]
    | false =>
      simp only [collapseAux, hc, Bool.false_eq_true, if_false,
        List.dropWhile_cons]

lemma rstrip_collapseAux (l : List Char) :
    ∀ b, rstrip (collapseAux b l) = collapseAux b (rstrip l) := by
  induction l with
  | nil => intro b; rfl
  | cons c cs ih =>
    intro b
    cases hc : pyWs c with
    | false =>
      have h2 : rstrip (c :: cs) = c :: rstrip cs := by
        rw [rstrip]; simp [hc]
      have h3 : ∀ b', collapseAux b' (c :: rstrip cs) = c :: collapseAux false (rstrip cs) := by
        intro b'; simp [collapseAux, hc]
      have h4 : collapseAux b (c :: cs) = c :: collapseAux false cs := by
        simp [collapseAux, hc]
      rw [h4, h2, h3, rstrip]
      simp only [hc, Bool.and_false, Bool.false_eq_true, if_false]
      rw [ih false]
    | true =>
      rcases hr : rstrip cs with _ | ⟨d, ds⟩
      · have hall : cs.all pyWs = true := (rstrip_eq_nil_iff cs).mp hr
        have hnil : collapseAux true cs = [] := (collapseAux_true_nil_iff cs).mpr hall
        have h2 : rstrip (c :: cs) = [] := by
          rw [rstrip, hr]; simp [hc]
        have hsp : pyWs ' ' = true := by decide
        cases b with
        | true => simp [collapseAux, hc, hnil, h2, rstrip, hr]
        | false => simp [collapseAux, hc, hnil, h2, rstrip, hr, hsp]
      · have h2 : rstrip (c :: cs) = c :: rstrip cs := by
          rw [rstrip, hr]; simp
        have hY : collapseAux true (rstrip cs) ≠ [] := by
          intro h0
          have h1 : (rstrip cs).all pyWs = true := (collapseAux_true_nil_iff _).mp h0
          have := rstrip_all_ws (l := cs) h1
          rw [hr] at this
          exact absurd this (List.cons_ne_nil _ _)
        cases b with
        | true =>
          calc rstrip (collapseAux true (c :: cs))
              = rstrip (collapseAux true cs) := by simp [collapseAux, hc]
            _ = collapseAux true (rstrip cs) := ih true
            _ = collapseAux true (c :: rstrip cs) := by simp [collapseAux, hc]
            _ = collapseAux true (rstrip (c :: cs)) := by rw [h2]
        | false =>
          have hL : collapseAux false (c :: cs) = ' ' :: collapseAux true cs := by
            simp [collapseAux, hc]
          have hR : collapseAux false (c :: rstrip cs)
              = ' ' :: collapseAux true (rstrip cs) := by
            simp [collapseAux, hc]
          rw [hL, h2, hR, rstrip, ih true]
          simp [hY]

lemma collapseWs_pyStrip (l : List Char) :
    collapseWs (pyStrip l) = pyStrip (collapseWs l) := by
  unfold collapseWs pyStrip
  rw [← rstrip_collapseAux (l.dropWhile pyWs) false, ← dropWhile_collapseAux l false]

lemma strLeB_refl (l : List Char) : strLeB l l = true := by
  induction l with
  | nil => rfl
  | cons c cs ih => simp [strLeB, ih]

lemma strLeB_total (a : List Char) : ∀ b, strLeB a b = true ∨ strLeB b a = true := by
  induction a with
  | nil => intro b; left; rfl
  | cons x xs ih =>
    intro b
    cases b with
    | nil => right; rfl
    | cons y ys =>
      by_cases hxy : x = y
      · subst hxy
        simpa [strLeB] using ih ys
      · rcases lt_or_gt_of_ne hxy with h | h
        · left; simp [strLeB, hxy, h]
        · right; simp [strLeB, Ne.symm hxy, h]

lemma strLeB_trans (a : List Char) :
    ∀ b c, strLeB a b = true → strLeB b c = true → strLeB a c = true := by
  induction a with
  | nil => intro b c _ _; rfl
  | cons x xs ih =>
    intro b c hab hbc
    cases b with
    | nil => simp [strLeB] at hab
    | cons y ys =>
      cases c with
      | nil => simp [strLeB] at hbc
      | cons z zs =>
        by_cases hxy : x = y <;> by_cases hyz : y = z
        · subst hxy; subst hyz
          simp only [strLeB, if_pos rfl] at hab hbc ⊢
          exact ih ys zs hab hbc
        · subst hxy
          simp only [strLeB, if_neg hyz] at hbc
          simp only [strLeB, if_neg hyz]
          exact hbc
        · subst hyz
          simp only [strLeB, if_neg hxy] at hab
          simp only [strLeB, if_neg hxy]
          exact hab
        · simp only [strLeB, if_neg hxy] at hab
          simp only [strLeB, if_neg hyz] at hbc
          have h1 : x < y := of_decide_eq_true hab
          have h2 : y < z := of_decide_eq_true hbc
          have hxz : x < z := lt_trans h1 h2
          simp [strLeB, ne_of_lt hxz, hxz]

lemma itemLe_refl (a : Item) : itemLe a a := by
  unfold itemLe itemLeB
  rw [strLeB_refl]
  simp

instance : IsTrans Item itemLe where
  trans := by
    intro a b c hab hbc
    unfold itemLe itemLeB at *
    simp only [Bool.or_eq_true, Bool.and_eq_true, decide_eq_true_eq] at hab hbc ⊢
    rcases hab with h1 | ⟨h1, s1⟩ <;> rcases hbc with h2 | ⟨h2, s2⟩
    · exact Or.inl (lt_trans h2 h1)
    · exact Or.inl (h2 ▸ h1)
    · exact Or.inl (h1 ▸ h2)
    · exact Or.inr ⟨h1.trans h2, strLeB_trans _ _ _ s1 s2⟩

instance : IsTotal Item itemLe where
  total := by
    intro a b
    unfold itemLe itemLeB
    simp only [Bool.or_eq_true, Bool.and_eq_true, decide_eq_true_eq]
    rcases lt_trichotomy a.score b.score with h | h | h
    · exact Or.inr (Or.inl h)
    · rcases strLeB_total a.published_sgt b.published_sgt with hs | hs
      · exact Or.inl (Or.inr ⟨h, hs⟩)
      · exact Or.inr (Or.inr ⟨h.symm, hs⟩)
    · exact Or.inl (Or.inl h)

lemma dedupGo_sublist (l : List Item) : ∀ seen, List.Sublist (dedupGo seen l) l := by
  induction l with
  | nil => intro seen; simp [dedupGo]
  | cons it rest ih =>
    intro seen
    by_cases h : normalize_title it.title ∈ seen
    · rw [dedupGo, if_pos h]
      exact (ih seen).cons it
    · rw [dedupGo, if_neg h]
      exact (ih _).cons₂ it

lemma dedupGo_not_mem_seen (l : List Item) :
    ∀ seen it, it ∈ dedupGo seen l → normalize_title it.title ∉ seen := by
  induction l with
  | nil => intro seen it h; simp [dedupGo] at h
  | cons hd rest ih =>
    intro seen it h
    by_cases hm : normalize_title hd.title ∈ seen
    · rw [dedupGo, if_pos hm] at h
      exact ih seen it h
    · rw [dedupGo, if_neg hm] at h
      rcases List.mem_cons.mp h with rfl | h2
      · exact hm
      · intro hin
        exact ih _ it h2 (List.mem_cons_of_mem _ hin)

lemma dedupGo_pairwise (l : List Item) :
    ∀ seen, (dedupGo seen l).Pairwise
      (fun a b => normalize_title a.title ≠ normalize_title b.title) := by
  induction l with
  | nil => intro seen; simp [dedupGo]
  | cons hd rest ih =>
    intro seen
    by_cases hm : normalize_title hd.title ∈ seen
    · rw [dedupGo, if_pos hm]
      exact ih seen
    · rw [dedupGo, if_neg hm]
      refine List.Pairwise.cons ?_ (ih _)
      intro b hb he
      exact dedupGo_not_mem_seen rest _ b hb (he ▸ List.mem_cons_self _ _)

lemma dedupGo_id (l : List Item) :
    ∀ seen, l.Pairwise (fun a b => normalize_title a.title ≠ normalize_title b.title) →
      (∀ it ∈ l, normalize_title it.title ∉ seen) → dedupGo seen l = l := by
  induction l with
  | nil => intro seen _ _; rfl
  | cons hd rest ih =>
    intro seen hp hs
    have hm : normalize_title hd.title ∉ seen := hs hd (List.mem_cons_self _ _)
    rw [dedupGo, if_neg hm]
    congr 1
    rcases List.pairwise_cons.mp hp with ⟨hhd, htl⟩
    apply ih _ htl
    intro it hit hin
    rcases List.mem_cons.mp hin with he | hseen
    · exact hhd it hit he.symm
    · exact hs it (List.mem_cons_of_mem _ hit) hseen

lemma dedupGo_covers (l : List Item) :
    l.Sorted itemLe → ∀ seen a, a ∈ l →
      normalize_title a.title ∈ seen ∨
        ∃ b ∈ dedupGo seen l,
          normalize_title b.title = normalize_title a.title ∧ itemLe b a := by
  induction l with
  | nil => intro _ seen a ha; simp at ha
  | cons hd rest ih =>
    intro hsort seen a ha
    have hhd : ∀ y ∈ rest, itemLe hd y := List.rel_of_sorted_cons hsort
    have htl : rest.Sorted itemLe := hsort.of_cons
    by_cases hm : normalize_title hd.title ∈ seen
    · rw [dedupGo, if_pos hm]
      rcases List.mem_cons.mp ha with rfl | ha2
      · exact Or.inl hm
      · exact ih htl seen a ha2
    · rw [dedupGo, if_neg hm]
      rcases List.mem_cons.mp ha with rfl | ha2
      · exact Or.inr ⟨a, List.mem_cons_self _ _, rfl, itemLe_refl a⟩
      · rcases ih htl (normalize_title hd.title :: seen) a ha2 with hin | ⟨b, hb, hbn, hble⟩
        · rcases List.mem_cons.mp hin with he | hseen
          · exact Or.inr ⟨hd, List.mem_cons_self _ _, he.symm, hhd a ha2⟩
          · exact Or.inl hseen
        · exact Or.inr ⟨b, List.mem_cons_of_mem _ hb, hbn, hble⟩

lemma roundHalfEven_nonneg {q : ℚ} (hq : 0 ≤ q) : 0 ≤ roundHalfEven q := by
  have h0 : (0:ℤ) ≤ ⌊q⌋ := Int.floor_nonneg.mpr hq
  unfold roundHalfEven
  split_ifs <;> omega

lemma roundHalfEven_le {q : ℚ} {n : ℤ} (h : q ≤ (n:ℚ)) : roundHalfEven q ≤ n := by
  have hf : ⌊q⌋ ≤ n := by
    have := Int.floor_le_floor h
    rwa [Int.floor_intCast] at this
  unfold roundHalfEven
  split_ifs with h1 h2 h3
  · exact hf
  · have hfr : (0:ℚ) < q - ⌊q⌋ := by linarith
    have hlt : (⌊q⌋:ℚ) < q := by linarith
    have : ⌊q⌋ < n := by exact_mod_cast hlt.trans_le h
    omega
  · exact hf
  · have hge : 1/2 ≤ q - (⌊q⌋:ℚ) := not_lt.mp h1
    have hlt : (⌊q⌋:ℚ) < q := by linarith
    have : ⌊q⌋ < n := by exact_mod_cast hlt.trans_le h
    omega

lemma pyRound1_nonneg {q : ℚ} (hq : 0 ≤ q) : 0 ≤ pyRound1 q := by
  unfold pyRound1
  apply div_nonneg _ (by norm_num)
  exact_mod_cast roundHalfEven_nonneg (mul_nonneg (by norm_num) hq)

lemma pyRound1_le_ten {q : ℚ} (hq : q ≤ 10) : pyRound1 q ≤ 10 := by
  unfold pyRound1
  rw [div_le_iff₀ (by norm_num : (0:ℚ) < 10)]
  have h : roundHalfEven (10 * q) ≤ (100:ℤ) := roundHalfEven_le (by push_cast; linarith)
  calc ((roundHalfEven (10 * q) : ℤ) : ℚ) ≤ ((100:ℤ) : ℚ) := by exact_mod_cast h
    _ = 10 * 10 := by norm_num

lemma scoreBase_nonneg (t : List Char) (k : String) : 0 ≤ scoreBase t k := by
  unfold scoreBase
  apply add_nonneg
  · split <;> norm_num
  · apply List.sum_nonneg
    intro x hx
    simp only [List.mem_map] at hx
    obtain ⟨kw, hkw, rfl⟩ := hx
    have hall : ∀ kw ∈ scoreKeywords, (0:ℚ) ≤ kw.2 := by decide
    exact hall kw (List.mem_of_mem_filter hkw)

lemma score_item_nonneg (t : List Char) (k : String) : 0 ≤ score_item t k := by
  unfold score_item pyMin
  split
  · norm_num
  · exact pyRound1_nonneg (scoreBase_nonneg t k)

lemma itemScore_bounds (t : List Char) (k : String) {w : ℚ} (hw : 0 < w) :
    0 ≤ itemScore t k w ∧ itemScore t k w ≤ 10 ∧
      ∃ n : ℤ, itemScore t k w = (n:ℚ)/10 := by
  have hz0 : 0 ≤ pyMin 10 (score_item t k * w) := by
    unfold pyMin
    split
    · norm_num
    · exact mul_nonneg (score_item_nonneg t k) hw.le
  have hz10 : pyMin 10 (score_item t k * w) ≤ 10 := by
    unfold pyMin
    split
    · exact le_refl _
    · linarith [not_le.mp (by assumption : ¬((10:ℚ) ≤ score_item t k * w))]
  exact ⟨pyRound1_nonneg hz0, pyRound1_le_ten hz10,
    ⟨roundHalfEven (10 * pyMin 10 (score_item t k * w)), rfl⟩⟩

lemma entryToItem_score {src : SourceCfg} {wS wE : ℤ} {e : RawEntry} {it : Item}
    (h : entryToItem src wS wE e = some it) :
    it.score = itemScore (pyStrip e.title) src.kind src.weight := by
  unfold entryToItem at h
  split at h
  · simp at h
  · split_ifs at h with h1 h2
    have h' := Option.some.inj h
    subst h'
    rfl

lemma parseSourceCfg_error_of_missing (s : SrcYaml)
    (h : s.id = none ∨ s.name = none ∨ s.url = none ∨ s.lang = none ∨ s.kind = none) :
    parseSourceCfg s = .error "KeyError" := by
  obtain ⟨i, n, u, l, k, w⟩ := s
  rcases i with _ | i <;> rcases n with _ | n <;> rcases u with _ | u <;>
    rcases l with _ | l <;> rcases k with _ | k <;> simp_all [parseSourceCfg]

lemma loadSourcesGo_error (l : List SrcYaml) :
    ∀ s ∈ l, parseSourceCfg s = .error "KeyError" →
      ∃ msg, loadSourcesGo l = .error msg := by
  induction l with
  | nil => intro s hs; simp at hs
  | cons hd tl ih =>
    intro s hs he
    rcases List.mem_cons.mp hs with rfl | hmem
    · exact ⟨"KeyError", by simp [loadSourcesGo, he]⟩
    · rcases hp : parseSourceCfg hd with msg | c
      · exact ⟨msg, by simp [loadSourcesGo, hp]⟩
      · obtain ⟨msg, hmsg⟩ := ih s hmem he
        exact ⟨msg, by simp [loadSourcesGo, hp, hmsg]⟩

/-- C1 (counterexample): at the title "exploit hack drain" (base 12.2), kind
"news" and positive weight 1/2, the pipeline's stored score is 5.0 — the
scorer clamped the base to 10.0 before the multiplication — while the claim's
formula (clamp and round only after the multiplication) yields 6.1. -/
theorem itemScore_order_counterexample :
    (0:ℚ) < 1/2 ∧
    itemScore "exploit hack drain".data "news" (1/2) = 5 ∧
    claimFinalScore "exploit hack drain".data "news" (1/2) = 61/10 ∧
    itemScore "exploit hack drain".data "news" (1/2) ≠
      claimFinalScore "exploit hack drain".data "news" (1/2) := by decide

/-- C1 (amended): for every title, kind and positive source weight, the final
score equals the accumulated base first clamped to 10.0 and rounded inside the
scorer, then multiplied by the source weight, then clamped to 10.0 and rounded
to 1 decimal again — clamping and rounding happen both before and after the
weight multiplication. -/
theorem itemScore_amended_eq (title : List Char) (kind : String) (weight : ℚ)
    (_hw : 0 < weight) :
    itemScore title kind weight = amendedFinalScore title kind weight := rfl

/-- Witness for C1's amended theorem at title "hack", kind "news", weight 1/2. -/
theorem itemScore_amended_eq_witness :
    (0:ℚ) < 1/2 ∧
    itemScore "hack".data "news" (1/2) = amendedFinalScore "hack".data "news" (1/2) :=
  ⟨by decide, itemScore_amended_eq "hack".data "news" (1/2) (by decide)⟩

/-- C2 (counterexample): two duplicates with equal score where `itemA` is
published strictly earlier than `itemB`: the Deduplicator sorts `itemA` first
(ascending timestamp string on ties) and retains it, dropping the more
recently published `itemB` — the claim predicts the later-published item
sorts first and is retained. -/
theorem dedup_tiebreak_counterexample :
    itemA.score = itemB.score ∧
    itemA.published_sgt ≠ itemB.published_sgt ∧
    strLeB itemA.published_sgt itemB.published_sgt = true ∧
    normalize_title itemA.title = normalize_title itemB.title ∧
    dedup [itemB, itemA] = [itemA] ∧
    itemB ∉ dedup [itemB, itemA] := by decide

/-- C2 (amended): the Deduplicator processes items in descending order of
score, breaking score ties in favor of the item with the EARLIER normalized
publication time (ascending ISO timestamp string): its output is sorted by
`itemLe`, and for every input item some retained item has the same normalized
title key and ranks at least as high (higher score, or equal score and
earlier-or-equal publication time). -/
theorem dedup_ranked_retention (items : List Item) :
    List.Sorted itemLe (dedup items) ∧
    ∀ a ∈ items, ∃ b ∈ dedup items,
      normalize_title b.title = normalize_title a.title ∧ itemLe b a := by
  constructor
  · exact List.Pairwise.sublist (dedupGo_sublist _ _) (List.sorted_insertionSort itemLe items)
  · intro a ha
    have ha' : a ∈ List.insertionSort itemLe items := (List.mem_insertionSort itemLe).mpr ha
    rcases dedupGo_covers _ (List.sorted_insertionSort itemLe items) [] a ha' with hin | hex
    · simp at hin
    · exact hex

/-- Witness for C2's amended theorem at the singleton input `[itemA]`. -/
theorem dedup_ranked_retention_witness :
    ∃ b ∈ dedup [itemA],
      normalize_title b.title = normalize_title itemA.title ∧ itemLe b itemA :=
  (dedup_ranked_retention [itemA]).2 itemA (by decide)

/-- C3 (counterexample): on an input holding seven copies of one item (score
5), Headlines receives five copies and Quick two, so the same item belongs to
both buckets — the claimed pairwise disjointness fails for inputs with
duplicate items. -/
theorem pick_sections_disjoint_counterexample :
    itemC ∈ (pick_sections (List.replicate 7 itemC)).1 ∧
    itemC ∈ (pick_sections (List.replicate 7 itemC)).2.2 := by decide

/-- C3 (amended): Breaking (computed first) never shares an item with
Headlines or Quick and holds only items with score at least 8.8, capped at 2;
Headlines holds at most 5 and Quick at most 12 items; and whenever the input
has no duplicate items (as a deduplicated sequence does), Headlines and Quick
are also disjoint. `pick_sections` returns (headlines, breaking, quick). -/
theorem pick_sections_amended (items : List Item) :
    (∀ x ∈ (pick_sections items).2.1,
        x ∉ (pick_sections items).1 ∧ x ∉ (pick_sections items).2.2 ∧ (8.8:ℚ) ≤ x.score)
    ∧ (items.Nodup → ∀ x ∈ (pick_sections items).1, x ∉ (pick_sections items).2.2)
    ∧ (pick_sections items).2.1.length ≤ 2
    ∧ (pick_sections items).1.length ≤ 5
    ∧ (pick_sections items).2.2.length ≤ 12 := by
  have hrest : ∀ x ∈ sectionRest items, x ∉ sectionBreaking items := by
    intro x hx
    exact of_decide_eq_true (List.mem_filter.mp hx).2
  refine ⟨?_, ?_, ?_, ?_, ?_⟩
  · intro x hx
    have hx' : x ∈ (sectionSorted items).filter (fun x => decide ((8.8:ℚ) ≤ x.score)) :=
      List.take_subset _ _ hx
    refine ⟨?_, ?_, of_decide_eq_true (List.mem_filter.mp hx').2⟩
    · intro hxh
      exact hrest x (List.take_subset _ _ hxh) hx
    · intro hxq
      exact hrest x (List.drop_subset _ _ (List.take_subset _ _ hxq)) hx
  · intro hnd x hxh hxq
    have hnds : (sectionSorted items).Nodup :=
      (List.perm_insertionSort itemLe items).nodup_iff.mpr hnd
    have hndr : (sectionRest items).Nodup := hnds.filter _
    have hxd : x ∈ (sectionRest items).drop 5 := List.take_subset _ _ hxq
    have hsplit := List.take_append_drop 5 (sectionRest items)
    rw [← hsplit] at hndr
    exact (List.nodup_append.mp hndr).2.2 hxh hxd
  · exact List.length_take_le _ _
  · exact List.length_take_le _ _
  · exact List.length_take_le _ _

/-- Witness for C3's amended theorem at the duplicate-free input `[itemD]`
(score 9): the item lands in Breaking and in neither other bucket. -/
theorem pick_sections_amended_witness :
    itemD ∈ (pick_sections [itemD]).2.1 ∧
    itemD ∉ (pick_sections [itemD]).1 ∧ itemD ∉ (pick_sections [itemD]).2.2 ∧
    (∀ x ∈ (pick_sections [itemD]).1, x ∉ (pick_sections [itemD]).2.2) := by
  have h := pick_sections_amended [itemD]
  have hmem : itemD ∈ (pick_sections [itemD]).2.1 := by decide
  have hnd : ([itemD] : List Item).Nodup := by decide
  exact ⟨hmem, (h.1 itemD hmem).1, (h.1 itemD hmem).2.1, h.2.1 hnd⟩

/-- C4: every Item the pipeline's `fetch_items` creates (for sources with
positive weight) has a score in the closed interval [0, 10] that is an
integer number of tenths, i.e. rounded to at most one decimal place. -/
theorem fetch_items_score_bounds (sources : List SourceCfg)
    (feeds : String → List RawEntry) (wS wE : ℤ) (it : Item)
    (hw : ∀ s ∈ sources, 0 < s.weight) (hit : it ∈ fetch_items sources feeds wS wE) :
    0 ≤ it.score ∧ it.score ≤ 10 ∧ ∃ n : ℤ, it.score = (n:ℚ)/10 := by
  unfold fetch_items at hit
  rw [List.mem_flatMap] at hit
  obtain ⟨src, hsrc, hmem⟩ := hit
  unfold fetch_source at hmem
  rw [List.mem_filterMap] at hmem
  obtain ⟨e, _, he⟩ := hmem
  rw [entryToItem_score he]
  exact itemScore_bounds _ _ (hw src hsrc)

/-- Witness for C4 at the single source `srcEn` (weight 1) and the single
entry `entryOk`, whose produced item is `witnessItem`. -/
theorem fetch_items_score_bounds_witness :
    (∀ s ∈ [srcEn], 0 < s.weight) ∧
    (0 ≤ witnessItem.score ∧ witnessItem.score ≤ 10 ∧
      ∃ n : ℤ, witnessItem.score = (n:ℚ)/10) :=
  ⟨by decide,
   fetch_items_score_bounds [srcEn] (fun _ => [entryOk]) 0 100 witnessItem
     (by decide) (by decide)⟩

/-- C5: the Classifier is a total function returning exactly one of the five
categories, and the priority order is respected: any title containing a
Security keyword (in its lower-cased form) — for instance one containing both
"hack" and "sec" — classifies as Security, never as a later category. -/
theorem classify_total_priority (title : List Char) :
    (classify title = "Security" ∨ classify title = "Regulation" ∨
      classify title = "Biz/Capital" ∨ classify title = "Markets" ∨
      classify title = "General")
    ∧ (securityKeywords.any (fun k => isSubstrOf k (lowerStr title)) = true →
        classify title = "Security") := by
  constructor
  · unfold classify
    split_ifs <;> simp
  · intro h
    simp [classify, h]

/-- Witness for C5 at the title "hack and sec", which contains both the
Security keyword "hack" and the Regulation keyword "sec". -/
theorem classify_total_priority_witness :
    securityKeywords.any (fun k => isSubstrOf k (lowerStr "hack and sec".data)) = true ∧
    regulationKeywords.any (fun k => isSubstrOf k (lowerStr "hack and sec".data)) = true ∧
    classify "hack and sec".data = "Security" :=
  ⟨by decide, by decide, (classify_total_priority "hack and sec".data).2 (by decide)⟩

/-- C6: the Window Filter keeps an entry exactly when it has a parseable
timestamp (first success among published/updated/pubDate) whose normalized
instant — a naive timestamp is read as UTC — lies in the CLOSED interval
[win_start, win_end]: boundary instants are kept, instants strictly outside
are dropped, and entries with no parseable timestamp are dropped without
error. -/
theorem windowKeep_closed_interval (wS wE : ℤ) (e : RawEntry) :
    windowKeep wS wE e = true ↔
      ∃ d, safe_parse_dt e = some d ∧ wS ≤ dtInstant d ∧ dtInstant d ≤ wE := by
  unfold windowKeep
  rcases h : safe_parse_dt e with _ | d
  · simp
  · simp [h, decide_eq_true_eq, and_assoc]

/-- C7: no two items in the Deduplicator's output share a normalized title
key, and the Deduplicator is idempotent — it keeps the first occurrence of
each key under ranked order, so running it on its own output changes
nothing. -/
theorem dedup_nodup_keys_idempotent (items : List Item) :
    (dedup items).Pairwise
      (fun a b => normalize_title a.title ≠ normalize_title b.title)
    ∧ dedup (dedup items) = dedup items := by
  refine ⟨dedupGo_pairwise _ _, ?_⟩
  have hsorted : List.Sorted itemLe (dedup items) :=
    List.Pairwise.sublist (dedupGo_sublist _ _) (List.sorted_insertionSort itemLe items)
  have hkeys : (dedup items).Pairwise
      (fun a b => normalize_title a.title ≠ normalize_title b.title) :=
    dedupGo_pairwise _ _
  show dedupGo [] (List.insertionSort itemLe (dedup items)) = dedup items
  rw [List.Sorted.insertionSort_eq hsorted]
  exact dedupGo_id _ [] hkeys (fun it _ => List.not_mem_nil _)

/-- C8 (counterexample): on the two-character title "‘`" (left curly single
quote, backtick) the source's normalization keeps the left curly single quote
and removes the backtick, while the claim's rule (remove all straight and
curly single/double quotes) does the opposite. -/
theorem normalize_title_counterexample :
    normalize_title c8Title ≠ normalizeTitleClaim c8Title ∧
    normalize_title c8Title = ['‘'] ∧ normalizeTitleClaim c8Title = ['`'] := by
  decide

/-- C8 (amended): title normalization lower-cases, collapses whitespace runs,
strips leading/trailing whitespace, removes the quote characters of the
source's class — straight single and double quotes, curly double quotes, the
RIGHT curly single quote and the backtick (the left curly single quote is not
removed) — and removes brackets; the claim's operation order agrees with the
code's for every title. -/
theorem normalize_title_amended_eq (l : List Char) :
    normalize_title l = normalizeTitleAmended l := by
  unfold normalize_title normalizeTitleAmended
  rw [collapseWs_pyStrip]

/-- C9 (counterexample): a configuration with no sources defined (key absent
or empty list) is NOT a fatal error: `load_sources` returns the empty source
list and the run proceeds. -/
theorem load_sources_no_sources_counterexample :
    load_sources { sources := none } = .ok [] ∧
    load_sources { sources := some [] } = .ok [] := ⟨rfl, rfl⟩

/-- C9 (amended): a SourceConfig missing a required field among id, name,
url, lang, kind makes `load_sources` raise a run-terminating `KeyError`
(before any fetching, which `main` only starts afterwards); a configuration
with no sources defined is not an error and loads as the empty list. -/
theorem load_sources_missing_field_aborts (cfg : SourcesConfig) (s : SrcYaml)
    (hs : s ∈ cfg.sources.getD [])
    (hmiss : s.id = none ∨ s.name = none ∨ s.url = none ∨ s.lang = none ∨
      s.kind = none) :
    ∃ msg, load_sources cfg = .error msg := by
  unfold load_sources
  exact loadSourcesGo_error _ s hs (parseSourceCfg_error_of_missing s hmiss)

/-- Witness for C9's amended theorem at `cfgBad`, whose single source entry
`srcBad` is missing `id`. -/
theorem load_sources_missing_field_aborts_witness :
    ∃ msg, load_sources cfgBad = .error msg :=
  load_sources_missing_field_aborts cfgBad srcBad (by decide) (Or.inl rfl)

/-- C10: per source, ingestion considers at most the first 80 feed entries —
the items produced from any entry list coincide with those produced from its
first 80 entries, so an entry at position 81 or later never becomes an
Item. -/
theorem fetch_source_first_80 (src : SourceCfg) (entries : List RawEntry)
    (wS wE : ℤ) :
    fetch_source src entries wS wE = fetch_source src (entries.take 80) wS wE := by
  unfold fetch_source
  rw [List.take_take, min_self]
